import Mathlib

/-
Verification of the page-geometry and page-selection core of `unir_pdf.py`.

The Python source is shallowly embedded here:
  * page sizes and coordinates (Python floats) become exact rationals;
  * Python sets of page indices become `Finset ℤ`;
  * code that can raise an exception that escapes the function is embedded
    with `Except`, and per-item `try/except ...: continue` recovery is
    embedded by the explicit skip that the handler performs;
  * Python strings are handled with executable character-list helpers that
    mirror `str.strip`, `str.split` and `int(...)`.
-/

/-! ## Page sizes (reportlab `A4`, `letter`, `legal`, `A3`, `A5` and the
`PAPER_SIZES` table of `unir_pdf.py`, lines 26-37) -/

/-- One reportlab millimetre in points: `mm = cm / 10 = inch / 2.54 / 10` with
`inch = 72`. -/
def mmQ : ℚ := 72 / 25.4

/-- reportlab `A4` = `(210*mm, 297*mm)`. -/
def A4q : ℚ × ℚ := (210 * mmQ, 297 * mmQ)

/-- reportlab `letter` = `(8.5*inch, 11*inch)`. -/
def letterq : ℚ × ℚ := (8.5 * 72, 11 * 72)

/-- reportlab `legal` = `(8.5*inch, 14*inch)`. -/
def legalq : ℚ × ℚ := (8.5 * 72, 14 * 72)

/-- reportlab `A3` = `(297*mm, 420*mm)`. -/
def A3q : ℚ × ℚ := (297 * mmQ, 420 * mmQ)

/-- reportlab `A5` = `(148*mm, 210*mm)`. -/
def A5q : ℚ × ℚ := (148 * mmQ, 210 * mmQ)

/-- The `PAPER_SIZES` dict of `unir_pdf.py` (lines 26-37), in insertion
order, which is the iteration order of `PAPER_SIZES.items()`. -/
def PAPER_SIZES : List (String × ℚ × ℚ) :=
  [("A4", A4q),
   ("A4 Horizontal", (A4q.2, A4q.1)),
   ("Letter", letterq),
   ("Letter Horizontal", (letterq.2, letterq.1)),
   ("Legal", legalq),
   ("Legal Horizontal", (legalq.2, legalq.1)),
   ("A3", A3q),
   ("A3 Horizontal", (A3q.2, A3q.1)),
   ("A5", A5q),
   ("A5 Horizontal", (A5q.2, A5q.1))]

/-! ## The transform planner
(`resize_pdf_page_precise`, `unir_pdf.py` lines 100-156, and its fallback
`resize_pdf_page_simple`, lines 159-177) -/

/-- The geometric plan that a resize call applies to one page: a uniform
content scale, a translation, and the final page boundary (mediabox). -/
structure TransformPlan where
  scale : ℚ
  offsetX : ℚ
  offsetY : ℚ
  targetSize : ℚ × ℚ
deriving DecidableEq, Repr

/-- The geometry computed by `resize_pdf_page_precise` (lines 113-144):
`scale = min(target_width/original_width, target_height/original_height)`,
offsets `(target - original*scale)/2` on each axis, and the mediabox set to
the target size.  (The code only calls `page.translate` when an offset is
positive; translating by zero is the same transform, so the plan records
the offsets unconditionally.) -/
def plan_precise (src target : ℚ × ℚ) : TransformPlan :=
  let scale := min (target.1 / src.1) (target.2 / src.2)
  { scale := scale
    offsetX := (target.1 - src.1 * scale) / 2
    offsetY := (target.2 - src.2 * scale) / 2
    targetSize := target }

/-- The fallback chain of `resize_pdf_page_precise` (lines 153-156): when a
source dimension is zero, `target_width / original_width` (line 114 or 115)
raises `ZeroDivisionError`, the handler emits a warning (`st.warning`) and
falls back to `resize_pdf_page_simple` (lines 159-177), which leaves the
content unscaled and untranslated and only sets the mediabox to the target
size.  The boolean records whether the warning was emitted. -/
def plan_with_fallback (src target : ℚ × ℚ) : TransformPlan × Bool :=
  if src.1 ≠ 0 ∧ src.2 ≠ 0 then (plan_precise src target, false)
  else ({ scale := 1, offsetX := 0, offsetY := 0, targetSize := target }, true)

/-- Claim C3: for every source page size with positive width and height and
every target size, the fit-centered transform uses
`scale = min(targetW/srcW, targetH/srcH)` and offsets
`(targetW - srcW*scale)/2`, `(targetH - srcH*scale)/2`, the scaled content
dimensions never exceed the target dimensions on either axis, and both
offsets are nonnegative. -/
theorem C3_fit_centered (src target : ℚ × ℚ) (hw : 0 < src.1) (hh : 0 < src.2) :
    (plan_precise src target).scale = min (target.1 / src.1) (target.2 / src.2) ∧
    (plan_precise src target).offsetX
      = (target.1 - src.1 * (plan_precise src target).scale) / 2 ∧
    (plan_precise src target).offsetY
      = (target.2 - src.2 * (plan_precise src target).scale) / 2 ∧
    src.1 * (plan_precise src target).scale ≤ target.1 ∧
    src.2 * (plan_precise src target).scale ≤ target.2 ∧
    0 ≤ (plan_precise src target).offsetX ∧
    0 ≤ (plan_precise src target).offsetY := by
  have hb1 : src.1 * (plan_precise src target).scale ≤ target.1 := by
    show src.1 * min (target.1 / src.1) (target.2 / src.2) ≤ target.1
    calc src.1 * min (target.1 / src.1) (target.2 / src.2)
        ≤ src.1 * (target.1 / src.1) :=
          mul_le_mul_of_nonneg_left (min_le_left _ _) hw.le
      _ = target.1 := by rw [mul_comm]; exact div_mul_cancel₀ _ hw.ne'
  have hb2 : src.2 * (plan_precise src target).scale ≤ target.2 := by
    show src.2 * min (target.1 / src.1) (target.2 / src.2) ≤ target.2
    calc src.2 * min (target.1 / src.1) (target.2 / src.2)
        ≤ src.2 * (target.2 / src.2) :=
          mul_le_mul_of_nonneg_left (min_le_right _ _) hh.le
      _ = target.2 := by rw [mul_comm]; exact div_mul_cancel₀ _ hh.ne'
  refine ⟨rfl, rfl, rfl, hb1, hb2, ?_, ?_⟩
  · exact div_nonneg (sub_nonneg.mpr hb1) (by norm_num)
  · exact div_nonneg (sub_nonneg.mpr hb2) (by norm_num)

/-- Claim C3, witness: the guarantee evaluated at source `(100, 200)` and
target `(595, 842)`. -/
theorem C3_fit_centered_witness :
    (0 : ℚ) < (((100 : ℚ), (200 : ℚ)) : ℚ × ℚ).1 ∧
    (0 : ℚ) < (((100 : ℚ), (200 : ℚ)) : ℚ × ℚ).2 ∧
    ((plan_precise (100, 200) (595, 842)).scale
        = min ((595 : ℚ) / 100) ((842 : ℚ) / 200) ∧
      (plan_precise (100, 200) (595, 842)).offsetX
        = ((595 : ℚ) - 100 * (plan_precise (100, 200) (595, 842)).scale) / 2 ∧
      (plan_precise (100, 200) (595, 842)).offsetY
        = ((842 : ℚ) - 200 * (plan_precise (100, 200) (595, 842)).scale) / 2 ∧
      (100 : ℚ) * (plan_precise (100, 200) (595, 842)).scale ≤ 595 ∧
      (200 : ℚ) * (plan_precise (100, 200) (595, 842)).scale ≤ 842 ∧
      0 ≤ (plan_precise (100, 200) (595, 842)).offsetX ∧
      0 ≤ (plan_precise (100, 200) (595, 842)).offsetY) :=
  ⟨by norm_num, by norm_num, C3_fit_centered (100, 200) (595, 842) (by norm_num) (by norm_num)⟩

/-- Claim C8: when the source size already equals the target size (and is a
genuine page size, both dimensions positive), the fit-centered plan has
scale exactly 1 and both offsets exactly 0. -/
theorem C8_idempotent (src target : ℚ × ℚ) (heq : src = target)
    (hw : 0 < src.1) (hh : 0 < src.2) :
    (plan_precise src target).scale = 1 ∧
    (plan_precise src target).offsetX = 0 ∧
    (plan_precise src target).offsetY = 0 := by
  subst heq
  have h1 : min (src.1 / src.1) (src.2 / src.2) = 1 := by
    rw [div_self hw.ne', div_self hh.ne', min_self]
  refine ⟨h1, ?_, ?_⟩
  · show (src.1 - src.1 * min (src.1 / src.1) (src.2 / src.2)) / 2 = 0
    rw [h1]; ring
  · show (src.2 - src.2 * min (src.1 / src.1) (src.2 / src.2)) / 2 = 0
    rw [h1]; ring

/-- Claim C8, witness: an A4-sized page normalized to A4 keeps scale 1 and
zero offsets. -/
theorem C8_idempotent_witness :
    A4q = A4q ∧ (0 : ℚ) < A4q.1 ∧ (0 : ℚ) < A4q.2 ∧
    ((plan_precise A4q A4q).scale = 1 ∧
      (plan_precise A4q A4q).offsetX = 0 ∧
      (plan_precise A4q A4q).offsetY = 0) :=
  ⟨rfl, by norm_num [A4q, mmQ], by norm_num [A4q, mmQ],
    C8_idempotent A4q A4q rfl (by norm_num [A4q, mmQ]) (by norm_num [A4q, mmQ])⟩

/-- Claim C4, counterexample: for a page of size `(10, 0)` (zero height) and
target `(595, 842)`, the fallback records a warning and continues, but the
resulting page boundary is the target size `(595, 842)`, not the source size
`(10, 0)` as the claim states -- `resize_pdf_page_simple` still sets the
mediabox to the target (line 169). -/
theorem C4_fallback_cex :
    (plan_with_fallback (10, 0) (595, 842)).1.targetSize = (595, 842) ∧
    ((595 : ℚ), (842 : ℚ)) ≠ (((10 : ℚ), (0 : ℚ)) : ℚ × ℚ) ∧
    (plan_with_fallback (10, 0) (595, 842)).2 = true := by
  refine ⟨rfl, ?_, rfl⟩
  intro h
  have h1 : (595 : ℚ) = 10 := congrArg Prod.fst h
  norm_num at h1

/-- Claim C4, amended: if a source dimension is zero, the fallback plan
leaves content unscaled and untranslated (scale 1, offsets 0), records a
warning and continues -- but the page boundary is set to the TARGET size
(canvas-only resize), not kept at the source size. -/
theorem C4_fallback_amended (src target : ℚ × ℚ) (h : src.1 = 0 ∨ src.2 = 0) :
    plan_with_fallback src target
      = ({ scale := 1, offsetX := 0, offsetY := 0, targetSize := target }, true) := by
  unfold plan_with_fallback
  rw [if_neg]
  rcases h with h | h
  · exact fun hc => hc.1 h
  · exact fun hc => hc.2 h

/-- Claim C4, witness: the amended fallback evaluated at source `(10, 0)`,
target `(595, 842)`. -/
theorem C4_fallback_witness :
    ((((10 : ℚ), (0 : ℚ)) : ℚ × ℚ).1 = 0 ∨ (((10 : ℚ), (0 : ℚ)) : ℚ × ℚ).2 = 0) ∧
    plan_with_fallback (10, 0) (595, 842)
      = ({ scale := 1, offsetX := 0, offsetY := 0, targetSize := (595, 842) }, true) :=
  ⟨Or.inr rfl, C4_fallback_amended (10, 0) (595, 842) (Or.inr rfl)⟩

/-! ## Python string primitives used by the selector and the splitter -/

/-- The whitespace characters stripped by Python `str.strip()` (ASCII part)
and ignored by `int(...)`. -/
def isPyWs (c : Char) : Bool :=
  c = ' ' || c = '\t' || c = '\n' || c = '\r' || c = '\x0b' || c = '\x0c'

/-- Python `str.strip()`. -/
def pyStrip (s : String) : String :=
  String.mk (((s.data.dropWhile isPyWs).reverse.dropWhile isPyWs).reverse)

/-- Python `str.split(sep)` for a one-character separator, on the character
list: every occurrence of the separator starts a new fragment, and the empty
string yields one empty fragment. -/
def splitOnChar (sep : Char) : List Char → List (List Char)
  | [] => [[]]
  | c :: cs =>
    if c = sep then [] :: splitOnChar sep cs
    else
      match splitOnChar sep cs with
      | t :: ts => (c :: t) :: ts
      | [] => [[c]]

/-- Python `s.split(sep)` for a one-character separator. -/
def pySplit (s : String) (sep : Char) : List String :=
  (splitOnChar sep s.data).map String.mk

/-- Numeric value of a decimal digit character. -/
def digitVal (c : Char) : ℕ := c.toNat - 48

/-- Digits of a Python integer literal after the first digit: decimal digits
with single underscores allowed between digits, as `int(...)` accepts. -/
def pyDigitsAux : ℕ → List Char → Option ℕ
  | acc, [] => some acc
  | acc, '_' :: c :: cs =>
    if c.isDigit then pyDigitsAux (acc * 10 + digitVal c) cs else none
  | _, ['_'] => none
  | acc, c :: cs =>
    if c.isDigit then pyDigitsAux (acc * 10 + digitVal c) cs else none

/-- A nonempty run of decimal digits (underscore-separated), as accepted by
Python `int(...)` after the optional sign. -/
def pyParseDigits : List Char → Option ℕ
  | [] => none
  | c :: cs => if c.isDigit then pyDigitsAux (digitVal c) cs else none

/-- Python `int(s)`: surrounding whitespace is ignored, an optional sign is
followed by a nonempty digit run; anything else raises `ValueError`,
embedded as `none`. -/
def pyParseInt (s : String) : Option ℤ :=
  match (pyStrip s).data with
  | '+' :: cs => (pyParseDigits cs).map (fun n => (n : ℤ))
  | '-' :: cs => (pyParseDigits cs).map (fun n => -(n : ℤ))
  | cs => (pyParseDigits cs).map (fun n => (n : ℤ))

/-! ## The page selector (`parse_pages_input`, `unir_pdf.py` lines 305-333)

`parse_pages_input` returns a Python set of integers; it is embedded as a
`Finset ℤ`.  The function is total (it never raises): every `ValueError`
from a malformed token is caught and answered with `continue`, which
contributes no indices. -/

/-- The clamping of the exclusive end of a dashed range (lines 319-321):
`end_idx = end; if total_pages: end_idx = min(end_idx, total_pages)`.
Python truthiness means the clamp is skipped both when `total_pages` is
`None` and when it is `0`. -/
def clampEnd (total : Option ℕ) (e : ℤ) : ℤ :=
  match total with
  | some t => if t = 0 then e else min e (t : ℤ)
  | none => e

/-- Indices contributed by a dashed token `start-end` (lines 317-322):
`range(max(0, start - 1), end_idx)`. -/
def tokenPagesDashed (total : Option ℕ) (s e : ℤ) : Finset ℤ :=
  Finset.Ico (max 0 (s - 1)) (clampEnd total e)

/-- Indices contributed by a single-number token (lines 326-329): kept only
when in bounds if `total_pages` is known, and accepted unchecked when it is
`None`. -/
def tokenPagesSingle (total : Option ℕ) (n : ℤ) : Finset ℤ :=
  match total with
  | none => {n - 1}
  | some t => if 0 ≤ n - 1 ∧ n - 1 < (t : ℤ) then {n - 1} else ∅

/-- Dispatch on the two parsed endpoints of a dashed token; a `ValueError`
from either `int(...)` call is caught and the token is skipped. -/
def tokenPagesParsed (total : Option ℕ) : Option ℤ → Option ℤ → Finset ℤ
  | some s, some e => tokenPagesDashed total s e
  | _, _ => ∅

/-- Dispatch on the result of `part.split('-')`: unpacking `start, end`
succeeds only for exactly two fragments; any other shape raises
`ValueError`, which is caught and the token skipped. -/
def tokenPagesOfSplit (total : Option ℕ) : List String → Finset ℤ
  | [a, b] => tokenPagesParsed total (pyParseInt a) (pyParseInt b)
  | _ => ∅

/-- Dispatch on the result of `int(part)` for a single-number token. -/
def tokenPagesSingleOpt (total : Option ℕ) : Option ℤ → Finset ℤ
  | some n => tokenPagesSingle total n
  | none => ∅

/-- Indices contributed by one comma-separated token of the page spec
(lines 313-331): the token is stripped, treated as a dashed range when it
contains a dash and as a single number otherwise. -/
def tokenPages (total : Option ℕ) (part0 : String) : Finset ℤ :=
  if (pyStrip part0).data.contains '-' then
    tokenPagesOfSplit total (pySplit (pyStrip part0) '-')
  else
    tokenPagesSingleOpt total (pyParseInt (pyStrip part0))

/-- A token is malformed exactly when its numeric parse raises `ValueError`
in the Python code: a dashed token that does not split into two parsable
integers, or a single token whose `int(...)` fails. -/
def splitMalformed : List String → Bool
  | [a, b] => (pyParseInt a).isNone || (pyParseInt b).isNone
  | _ => true

/-- Whether one comma-separated token raises `ValueError` inside the loop
of `parse_pages_input` (and is therefore silently skipped). -/
def tokenMalformed (part0 : String) : Bool :=
  if (pyStrip part0).data.contains '-' then
    splitMalformed (pySplit (pyStrip part0) '-')
  else
    (pyParseInt (pyStrip part0)).isNone

/-- The accumulation loop of `parse_pages_input` over the comma-separated
tokens (`pages_to_remove.update(...)` / `.add(...)`). -/
def parseTokens (total : Option ℕ) (parts : List String) : Finset ℤ :=
  parts.foldl (fun acc part => acc ∪ tokenPages total part) ∅

/-- `parse_pages_input(pages_input, total_pages)` (lines 305-333): empty or
whitespace-only input yields the empty set; otherwise the input is split on
commas and each token contributes its indices. -/
def parse_pages_input (pages_input : String) (total_pages : Option ℕ) : Finset ℤ :=
  if pyStrip pages_input = "" then ∅
  else parseTokens total_pages (pySplit pages_input ',')

/-! ## The splitter (`split_pdf`, per-range branch, lines 352-377) -/

/-- Python `range(a, b)` as a list of integers. -/
def pageRange (a b : ℤ) : List ℤ :=
  (List.range (b - a).toNat).map (fun k => a + (k : ℤ))

/-- One iteration of the per-range loop of `split_pdf` (lines 353-377),
returning the page indices of the output document appended for this entry,
or `none` when the entry raised `ValueError` and the loop ran `continue`
before appending a buffer.  An entry that parses but selects no pages
still appends an (empty) document: the bounds check only guards
`add_page`, not the append. -/
def split_range_entry (total_pages : ℕ) (range_str : String) : Option (List ℤ) :=
  if range_str.data.contains '-' then
    match pySplit range_str '-' with
    | [a, b] =>
      match pyParseInt a, pyParseInt b with
      | some s, some e => some (pageRange (max 1 s - 1) (min (total_pages : ℤ) e))
      | _, _ => none
    | _ => none
  else
    match pyParseInt range_str with
    | some n =>
      if 0 ≤ n - 1 ∧ n - 1 < (total_pages : ℤ) then some [n - 1] else some []
    | none => none

/-- The per-range mode of `split_pdf`: the list of output documents (each a
list of zero-based page indices), one per range entry that did not raise. -/
def split_pdf_ranges (total_pages : ℕ) (custom_ranges : List String) : List (List ℤ) :=
  custom_ranges.filterMap (split_range_entry total_pages)

/-! ## Selector lemmas -/

/-- Bounds of the indices contributed by a dashed token when a page count
was supplied: always nonnegative, and below the count when it is nonzero
(when it is zero, Python truthiness skips the clamp entirely). -/
theorem tokenPagesDashed_bounds (t : ℕ) (s e i : ℤ)
    (hi : i ∈ tokenPagesDashed (some t) s e) :
    0 ≤ i ∧ (t ≠ 0 → i < (t : ℤ)) := by
  unfold tokenPagesDashed at hi
  rw [Finset.mem_Ico] at hi
  refine ⟨le_trans (le_max_left 0 (s - 1)) hi.1, fun ht0 => ?_⟩
  have h2 := hi.2
  simp only [clampEnd] at h2
  rw [if_neg ht0] at h2
  exact lt_of_lt_of_le h2 (min_le_right e (t : ℤ))

/-- Bounds of the index contributed by a single-number token when a page
count was supplied. -/
theorem tokenPagesSingle_bounds (t : ℕ) (n i : ℤ)
    (hi : i ∈ tokenPagesSingle (some t) n) :
    0 ≤ i ∧ (t ≠ 0 → i < (t : ℤ)) := by
  simp only [tokenPagesSingle] at hi
  split at hi
  · rw [Finset.mem_singleton] at hi
    subst hi
    rename_i h
    exact ⟨h.1, fun _ => h.2⟩
  · simp at hi

theorem tokenPagesParsed_bounds (t : ℕ) (oa ob : Option ℤ) (i : ℤ)
    (hi : i ∈ tokenPagesParsed (some t) oa ob) :
    0 ≤ i ∧ (t ≠ 0 → i < (t : ℤ)) := by
  cases oa with
  | none => simp [tokenPagesParsed] at hi
  | some s =>
    cases ob with
    | none => simp [tokenPagesParsed] at hi
    | some e => exact tokenPagesDashed_bounds t s e i hi

theorem tokenPagesOfSplit_bounds (t : ℕ) (l : List String) (i : ℤ)
    (hi : i ∈ tokenPagesOfSplit (some t) l) :
    0 ≤ i ∧ (t ≠ 0 → i < (t : ℤ)) := by
  rcases l with _ | ⟨a, _ | ⟨b, _ | ⟨c, rest⟩⟩⟩
  · simp [tokenPagesOfSplit] at hi
  · simp [tokenPagesOfSplit] at hi
  · exact tokenPagesParsed_bounds t _ _ i hi
  · simp [tokenPagesOfSplit] at hi

theorem tokenPagesSingleOpt_bounds (t : ℕ) (o : Option ℤ) (i : ℤ)
    (hi : i ∈ tokenPagesSingleOpt (some t) o) :
    0 ≤ i ∧ (t ≠ 0 → i < (t : ℤ)) := by
  cases o with
  | none => simp [tokenPagesSingleOpt] at hi
  | some n => exact tokenPagesSingle_bounds t n i hi

/-- Bounds of any index contributed by any token when a page count was
supplied. -/
theorem tokenPages_bounds (t : ℕ) (part : String) (i : ℤ)
    (hi : i ∈ tokenPages (some t) part) :
    0 ≤ i ∧ (t ≠ 0 → i < (t : ℤ)) := by
  unfold tokenPages at hi
  by_cases hc : ((pyStrip part).data.contains '-') = true
  · rw [if_pos hc] at hi
    exact tokenPagesOfSplit_bounds t _ i hi
  · rw [if_neg hc] at hi
    exact tokenPagesSingleOpt_bounds t _ i hi

/-- Membership in the token-accumulation loop, for an arbitrary initial
accumulator. -/
theorem mem_foldl_union (total : Option ℕ) (parts : List String)
    (init : Finset ℤ) (i : ℤ) :
    i ∈ parts.foldl (fun acc part => acc ∪ tokenPages total part) init ↔
      i ∈ init ∨ ∃ part ∈ parts, i ∈ tokenPages total part := by
  induction parts generalizing init with
  | nil => simp
  | cons x xs ih =>
    rw [List.foldl_cons, ih]
    simp only [Finset.mem_union, List.mem_cons]
    constructor
    · rintro ((h | h) | ⟨p, hp, hip⟩)
      · exact Or.inl h
      · exact Or.inr ⟨x, Or.inl rfl, h⟩
      · exact Or.inr ⟨p, Or.inr hp, hip⟩
    · rintro (h | ⟨p, rfl | hp, hip⟩)
      · exact Or.inl (Or.inl h)
      · exact Or.inl (Or.inr hip)
      · exact Or.inr ⟨p, hp, hip⟩

theorem mem_parseTokens (total : Option ℕ) (parts : List String) (i : ℤ) :
    i ∈ parseTokens total parts ↔ ∃ part ∈ parts, i ∈ tokenPages total part := by
  unfold parseTokens
  rw [mem_foldl_union]
  simp

theorem tokenPagesParsed_none_left (total : Option ℕ) (ob : Option ℤ) :
    tokenPagesParsed total none ob = ∅ := by
  cases ob <;> rfl

theorem tokenPagesParsed_none_right (total : Option ℕ) (oa : Option ℤ) :
    tokenPagesParsed total oa none = ∅ := by
  cases oa <;> rfl

theorem tokenPagesOfSplit_of_malformed (total : Option ℕ) (l : List String)
    (h : splitMalformed l = true) : tokenPagesOfSplit total l = ∅ := by
  rcases l with _ | ⟨a, _ | ⟨b, _ | ⟨c, rest⟩⟩⟩
  · rfl
  · rfl
  · simp only [splitMalformed, Bool.or_eq_true, Option.isNone_iff_eq_none] at h
    rcases h with h | h
    · simp only [tokenPagesOfSplit, h]
      exact tokenPagesParsed_none_left total _
    · simp only [tokenPagesOfSplit, h]
      exact tokenPagesParsed_none_right total _
  · rfl

/-- A token whose numeric parse raises contributes no indices. -/
theorem tokenPages_of_malformed (total : Option ℕ) (part : String)
    (h : tokenMalformed part = true) : tokenPages total part = ∅ := by
  unfold tokenMalformed at h
  unfold tokenPages
  by_cases hc : ((pyStrip part).data.contains '-') = true
  · rw [if_pos hc] at h ⊢
    exact tokenPagesOfSplit_of_malformed total _ h
  · rw [if_neg hc] at h ⊢
    rw [Option.isNone_iff_eq_none] at h
    rw [h]
    rfl

/-- Claim C5: `parse_pages_input` never raises (it is embedded as a total
function into `Finset ℤ`, because every `ValueError` is caught inside the
loop), and a malformed token contributes nothing while every other token of
the input is still honored: deleting a malformed token anywhere in the
token list leaves the resulting deduplicated index set unchanged. -/
theorem C5_malformed_dropped (total : Option ℕ) (bad : String)
    (hbad : tokenMalformed bad = true) (xs ys : List String) :
    tokenPages total bad = ∅ ∧
    parseTokens total (xs ++ bad :: ys) = parseTokens total (xs ++ ys) := by
  have hb := tokenPages_of_malformed total bad hbad
  refine ⟨hb, ?_⟩
  ext i
  rw [mem_parseTokens, mem_parseTokens]
  constructor
  · rintro ⟨p, hp, hip⟩
    rcases List.mem_append.mp hp with h | h
    · exact ⟨p, List.mem_append.mpr (Or.inl h), hip⟩
    · rcases List.mem_cons.mp h with rfl | h
      · rw [hb] at hip
        simp at hip
      · exact ⟨p, List.mem_append.mpr (Or.inr h), hip⟩
  · rintro ⟨p, hp, hip⟩
    rcases List.mem_append.mp hp with h | h
    · exact ⟨p, List.mem_append.mpr (Or.inl h), hip⟩
    · exact ⟨p, List.mem_append.mpr (Or.inr (List.mem_cons.mpr (Or.inr h))), hip⟩

/-- Claim C5, witness: the malformed token `"x"` between `"1"` and `"5-7"`
is dropped and the other two tokens are still honored. -/
theorem C5_malformed_dropped_witness :
    tokenMalformed "x" = true ∧
    tokenPages (some 10) "x" = ∅ ∧
    parseTokens (some 10) (["1"] ++ "x" :: ["5-7"]) = parseTokens (some 10) (["1"] ++ ["5-7"]) :=
  ⟨by decide, (C5_malformed_dropped (some 10) "x" (by decide) ["1"] ["5-7"]).1,
    (C5_malformed_dropped (some 10) "x" (by decide) ["1"] ["5-7"]).2⟩

/-- Claim C2, counterexample: the claim quantifies over every supplied
`totalPages` bound, but with `totalPages = 0` supplied (a zero-page
document) Python's `if total_pages:` treats the bound as absent, the dashed
clamp is skipped, and `parse_pages_input("1-3", 0)` contains index `0`,
which does not lie in the half-open interval `[0, 0)`. -/
theorem C2_parse_bounds_cex :
    (0 : ℤ) ∈ parse_pages_input "1-3" (some 0) ∧ ¬((0 : ℤ) < ((0 : ℕ) : ℤ)) := by
  decide

/-- Claim C2, amended: for every page-spec string and every supplied
positive `totalPages` bound, every index returned by `parse_pages_input`
lies in `[0, totalPages)`.  (The original claim fails only for the supplied
bound `0`, which Python truthiness conflates with `None`.) -/
theorem C2_parse_bounds_amended (t : ℕ) (ht : 0 < t) (s : String) (i : ℤ)
    (hi : i ∈ parse_pages_input s (some t)) : 0 ≤ i ∧ i < (t : ℤ) := by
  unfold parse_pages_input at hi
  split at hi
  · simp at hi
  · rw [mem_parseTokens] at hi
    obtain ⟨p, _, hip⟩ := hi
    have hb := tokenPages_bounds t p i hip
    exact ⟨hb.1, hb.2 ht.ne'⟩

/-- Claim C2, witness: the bound evaluated on `"1,3,5-7"` with 10 pages at
the returned index 4. -/
theorem C2_parse_bounds_witness :
    0 < 10 ∧ (4 : ℤ) ∈ parse_pages_input "1,3,5-7" (some 10) ∧
    (0 ≤ (4 : ℤ) ∧ (4 : ℤ) < ((10 : ℕ) : ℤ)) :=
  ⟨by decide, by decide, C2_parse_bounds_amended 10 (by decide) "1,3,5-7" 4 (by decide)⟩

/-- Claim C9, counterexample: with no `totalPages` bound supplied, the
single-number token `"0"` is accepted unchecked and contributes the
negative index `-1`, so the returned set does not contain only nonnegative
integers. -/
theorem C9_nonneg_cex :
    (-1 : ℤ) ∈ parse_pages_input "0" none ∧ ¬(0 ≤ (-1 : ℤ)) := by
  decide

/-- Claim C9, amended: whenever a `totalPages` bound is supplied (any
value, even 0), every index returned by `parse_pages_input` is
nonnegative; without a bound, single-number tokens `≤ 0` produce negative
indices. -/
theorem C9_nonneg_amended (t : ℕ) (s : String) (i : ℤ)
    (hi : i ∈ parse_pages_input s (some t)) : 0 ≤ i := by
  unfold parse_pages_input at hi
  split at hi
  · simp at hi
  · rw [mem_parseTokens] at hi
    obtain ⟨p, _, hip⟩ := hi
    exact (tokenPages_bounds t p i hip).1

/-- Claim C9, witness: nonnegativity evaluated on `"2"` with 10 pages at
the returned index 1. -/
theorem C9_nonneg_witness :
    (1 : ℤ) ∈ parse_pages_input "2" (some 10) ∧ 0 ≤ (1 : ℤ) :=
  ⟨by decide, C9_nonneg_amended 10 "2" 1 (by decide)⟩

/-! ## Splitter theorems -/

/-- Claim C1, counterexample: with a 5-page document, the single entry
list `["7"]` is out of bounds, yet `split_pdf` still appends one (empty)
output document for it: the number of outputs is 1, not strictly fewer
than the number of entries.  Only entries whose numeric parse raises are
skipped without an output. -/
theorem C1_split_ranges_cex :
    split_pdf_ranges 5 ["7"] = [[]] ∧
    ¬((split_pdf_ranges 5 ["7"]).length < (["7"] : List String).length) := by
  decide

/-- Claim C1, amended: in per-range split mode, an entry whose numeric
parse raises `ValueError` is skipped and produces no output document, so
the number of outputs is at most the number of range entries and is
strictly fewer exactly when some entry was unparsable.  An entry that
parses but is out of bounds still produces an output document (an empty
one when no pages fall in range). -/
theorem C1_split_ranges_amended (total : ℕ) (rs : List String) :
    (split_pdf_ranges total rs).length ≤ rs.length ∧
    ((split_pdf_ranges total rs).length < rs.length ↔
      ∃ r ∈ rs, split_range_entry total r = none) := by
  constructor
  · exact List.length_filterMap_le _ _
  · unfold split_pdf_ranges
    induction rs with
    | nil => simp
    | cons x xs ih =>
      cases hx : split_range_entry total x with
      | none =>
        simp only [List.filterMap_cons, hx, List.length_cons]
        constructor
        · intro _
          exact ⟨x, List.mem_cons_self x xs, hx⟩
        · intro _
          exact Nat.lt_succ_of_le (List.length_filterMap_le _ _)
      | some v =>
        simp only [List.filterMap_cons, hx, List.length_cons]
        rw [Nat.add_lt_add_iff_right, ih]
        constructor
        · rintro ⟨r, hr, hn⟩
          exact ⟨r, List.mem_cons_of_mem x hr, hn⟩
        · rintro ⟨r, hr, hn⟩
          rcases List.mem_cons.mp hr with rfl | hr2
          · rw [hx] at hn
            cases hn
          · exact ⟨r, hr2, hn⟩

/-! ## Target-size selection
(`find_best_fit_size`, `unir_pdf.py` lines 69-97, and `detect_optimal_size`,
lines 40-67) -/

/-- The score that `find_best_fit_size` accumulates for one candidate
standard size (lines 79-91): for every page, the absolute aspect difference
`abs(page_ratio - std_ratio)` plus, when the page exceeds the candidate on
some axis, `max(width - std_width, height - std_height) * 0.001`. -/
def page_score (all_sizes : List (ℚ × ℚ)) (std : ℚ × ℚ) : ℚ :=
  all_sizes.foldl
    (fun score p =>
      score + (|p.1 / p.2 - std.1 / std.2| +
        (if std.1 < p.1 ∨ std.2 < p.2 then max (p.1 - std.1) (p.2 - std.2) else 0)
          * (1 / 1000)))
    0

/-- One iteration of the candidate loop of `find_best_fit_size` (lines
74-95): the running best is replaced exactly when the candidate scores
strictly lower.  The initial best score `float('inf')` is embedded as
`none`, which every finite score beats. -/
def fbf_step (all_sizes : List (ℚ × ℚ)) (acc : (ℚ × ℚ) × Option ℚ)
    (cand : String × ℚ × ℚ) : (ℚ × ℚ) × Option ℚ :=
  match acc.2 with
  | none => (cand.2, some (page_score all_sizes cand.2))
  | some best_score =>
    if page_score all_sizes cand.2 < best_score then
      (cand.2, some (page_score all_sizes cand.2))
    else acc

/-- `find_best_fit_size(all_sizes, target_ratio, tolerance=0.1)` (lines
69-97).  The `target_rat` and `tolerance` parameters are present in the
Python signature but never read in the body.  Computing `width / height`
for a record with zero height raises `ZeroDivisionError` (uncaught in this
function), embedded as `Except.error`. -/
def find_best_fit_size (all_sizes : List (ℚ × ℚ)) (target_rat tolerance : ℚ) :
    Except Unit (ℚ × ℚ) :=
  if ∀ p ∈ all_sizes, p.2 ≠ 0 then
    .ok (PAPER_SIZES.foldl (fbf_step all_sizes) (A4q, none)).1
  else .error ()

/-- The cost formula exactly as the specification words it: Σ over all
records of `(aspect-ratio difference) + k * max(0, srcW - candW, srcH -
candH)` with `k = 0.001`.  Stated separately from `page_score` (which
follows the code) so that the two can be compared. -/
def spec_cost (all_sizes : List (ℚ × ℚ)) (cand : ℚ × ℚ) : ℚ :=
  (all_sizes.map (fun p =>
    |p.1 / p.2 - cand.1 / cand.2| +
      (1 / 1000) * max 0 (max (p.1 - cand.1) (p.2 - cand.2)))).sum

theorem penalty_eq (p c : ℚ × ℚ) :
    (if c.1 < p.1 ∨ c.2 < p.2 then max (p.1 - c.1) (p.2 - c.2) else 0) * (1 / 1000)
      = (1 / 1000) * max 0 (max (p.1 - c.1) (p.2 - c.2)) := by
  by_cases h : c.1 < p.1 ∨ c.2 < p.2
  · rw [if_pos h]
    have hpos : 0 < max (p.1 - c.1) (p.2 - c.2) := by
      rcases h with h | h
      · exact lt_of_lt_of_le (sub_pos.mpr h) (le_max_left _ _)
      · exact lt_of_lt_of_le (sub_pos.mpr h) (le_max_right _ _)
    rw [max_eq_right hpos.le, mul_comm]
  · rw [if_neg h]
    push_neg at h
    have hle : max (p.1 - c.1) (p.2 - c.2) ≤ 0 :=
      max_le (sub_nonpos.mpr h.1) (sub_nonpos.mpr h.2)
    rw [max_eq_left hle]
    ring

theorem page_score_aux (c : ℚ × ℚ) (l : List (ℚ × ℚ)) (a : ℚ) :
    l.foldl
      (fun score p =>
        score + (|p.1 / p.2 - c.1 / c.2| +
          (if c.1 < p.1 ∨ c.2 < p.2 then max (p.1 - c.1) (p.2 - c.2) else 0)
            * (1 / 1000)))
      a
      = a + spec_cost l c := by
  induction l generalizing a with
  | nil => simp [spec_cost]
  | cons x xs ih =>
    rw [List.foldl_cons, ih]
    unfold spec_cost
    rw [List.map_cons, List.sum_cons, penalty_eq]
    ring

/-- The code's accumulated score coincides with the specification's cost
formula. -/
theorem page_score_eq_spec_cost (l : List (ℚ × ℚ)) (c : ℚ × ℚ) :
    page_score l c = spec_cost l c := by
  unfold page_score
  rw [page_score_aux, zero_add]

theorem fbf_fold_some (sz : List (ℚ × ℚ)) (l : List (String × ℚ × ℚ)) :
    ∀ (v : ℚ × ℚ) (s : ℚ),
      (l.foldl (fbf_step sz) (v, some s) = (v, some s) ∧
        ∀ j : Fin l.length, s ≤ page_score sz (l.get j).2) ∨
      (∃ i : Fin l.length,
        l.foldl (fbf_step sz) (v, some s)
            = ((l.get i).2, some (page_score sz (l.get i).2)) ∧
        page_score sz (l.get i).2 < s ∧
        (∀ j : Fin l.length,
          page_score sz (l.get i).2 ≤ page_score sz (l.get j).2) ∧
        ∀ j : Fin l.length, (j : ℕ) < (i : ℕ) →
          page_score sz (l.get i).2 < page_score sz (l.get j).2) := by
  induction l with
  | nil => exact fun v s => Or.inl ⟨rfl, fun j => j.elim0⟩
  | cons x xs ih =>
    intro v s
    rw [List.foldl_cons]
    by_cases hx : page_score sz x.2 < s
    · have hstep : fbf_step sz (v, some s) x = (x.2, some (page_score sz x.2)) := by
        show (if page_score sz x.2 < s then _ else _) = _
        rw [if_pos hx]
      rw [hstep]
      rcases ih x.2 (page_score sz x.2) with ⟨heq, hall⟩ | ⟨i, heq, hlt, hmin, hfirst⟩
      · refine Or.inr ⟨⟨0, Nat.succ_pos _⟩, by rw [heq]; rfl, hx, ?_, ?_⟩
        · intro j
          refine Fin.cases ?_ ?_ j
          · exact le_refl _
          · intro k
            exact hall k
        · intro j hj
          exact absurd hj (Nat.not_lt_zero _)
      · refine Or.inr ⟨i.succ, by rw [heq]; rfl, lt_trans hlt hx, ?_, ?_⟩
        · intro j
          refine Fin.cases ?_ ?_ j
          · exact hlt.le
          · intro k
            exact hmin k
        · refine fun j => Fin.cases ?_ ?_ j
          · intro _
            exact hlt
          · intro k hk
            exact hfirst k (Nat.lt_of_succ_lt_succ hk)
    · have hstep : fbf_step sz (v, some s) x = (v, some s) := by
        show (if page_score sz x.2 < s then _ else _) = _
        rw [if_neg hx]
      rw [hstep]
      rcases ih v s with ⟨heq, hall⟩ | ⟨i, heq, hlt, hmin, hfirst⟩
      · refine Or.inl ⟨heq, ?_⟩
        intro j
        refine Fin.cases ?_ ?_ j
        · exact not_lt.mp hx
        · intro k
          exact hall k
      · have hxle : page_score sz (xs.get i).2 < page_score sz x.2 :=
          lt_of_lt_of_le hlt (not_lt.mp hx)
        refine Or.inr ⟨i.succ, heq, hlt, ?_, ?_⟩
        · intro j
          refine Fin.cases ?_ ?_ j
          · exact hxle.le
          · intro k
            exact hmin k
        · refine fun j => Fin.cases ?_ ?_ j
          · intro _
            exact hxle
          · intro k hk
            exact hfirst k (Nat.lt_of_succ_lt_succ hk)

theorem fbf_fold_argmin (sz : List (ℚ × ℚ)) (l : List (String × ℚ × ℚ))
    (hl : l ≠ []) :
    ∃ i : Fin l.length,
      (l.foldl (fbf_step sz) (A4q, none)).1 = (l.get i).2 ∧
      (∀ j : Fin l.length,
        page_score sz (l.get i).2 ≤ page_score sz (l.get j).2) ∧
      ∀ j : Fin l.length, (j : ℕ) < (i : ℕ) →
        page_score sz (l.get i).2 < page_score sz (l.get j).2 := by
  cases l with
  | nil => exact absurd rfl hl
  | cons x xs =>
    rw [List.foldl_cons]
    have hstep : fbf_step sz (A4q, none) x = (x.2, some (page_score sz x.2)) := rfl
    rw [hstep]
    rcases fbf_fold_some sz xs x.2 (page_score sz x.2) with
      ⟨heq, hall⟩ | ⟨i, heq, hlt, hmin, hfirst⟩
    · refine ⟨⟨0, Nat.succ_pos _⟩, by rw [heq]; rfl, ?_, ?_⟩
      · intro j
        refine Fin.cases ?_ ?_ j
        · exact le_refl _
        · intro k
          exact hall k
      · intro j hj
        exact absurd hj (Nat.not_lt_zero _)
    · refine ⟨i.succ, by rw [heq]; rfl, ?_, ?_⟩
      · intro j
        refine Fin.cases ?_ ?_ j
        · exact hlt.le
        · intro k
          exact hmin k
      · refine fun j => Fin.cases ?_ ?_ j
        · intro _
          exact hlt
        · intro k hk
          exact hfirst k (Nat.lt_of_succ_lt_succ hk)

/-- Claim C7: in best-fit mode, for a nonempty collection of page-size
records (with nonzero heights so no `ZeroDivisionError` is raised), the
selector returns the candidate of the `PAPER_SIZES` table whose total cost
Σ (aspect-ratio difference + 0.001 * max(0, srcW - candW, srcH - candH))
is minimal, with ties broken by table order (the earliest minimal
candidate wins). -/
theorem C7_best_fit_argmin (sz : List (ℚ × ℚ)) (target_rat tolerance : ℚ)
    (hne : sz ≠ []) (hz : ∀ p ∈ sz, p.2 ≠ 0) :
    ∃ i : Fin PAPER_SIZES.length,
      find_best_fit_size sz target_rat tolerance = .ok ((PAPER_SIZES.get i).2) ∧
      (∀ j : Fin PAPER_SIZES.length,
        spec_cost sz ((PAPER_SIZES.get i).2) ≤ spec_cost sz ((PAPER_SIZES.get j).2)) ∧
      ∀ j : Fin PAPER_SIZES.length, (j : ℕ) < (i : ℕ) →
        spec_cost sz ((PAPER_SIZES.get i).2) < spec_cost sz ((PAPER_SIZES.get j).2) := by
  obtain ⟨i, h1, h2, h3⟩ :=
    fbf_fold_argmin sz PAPER_SIZES (by unfold PAPER_SIZES; exact List.cons_ne_nil _ _)
  refine ⟨i, ?_, ?_, ?_⟩
  · unfold find_best_fit_size
    rw [if_pos hz, h1]
  · intro j
    rw [← page_score_eq_spec_cost, ← page_score_eq_spec_cost]
    exact h2 j
  · intro j hj
    rw [← page_score_eq_spec_cost, ← page_score_eq_spec_cost]
    exact h3 j hj

/-- Claim C7, witness: the argmin property evaluated on the single record
`(600, 800)`. -/
theorem C7_best_fit_argmin_witness :
    ([((600 : ℚ), (800 : ℚ))] : List (ℚ × ℚ)) ≠ [] ∧
    (∀ p ∈ ([((600 : ℚ), (800 : ℚ))] : List (ℚ × ℚ)), p.2 ≠ 0) ∧
    ∃ i : Fin PAPER_SIZES.length,
      find_best_fit_size [((600 : ℚ), (800 : ℚ))] 0 0 = .ok ((PAPER_SIZES.get i).2) ∧
      (∀ j : Fin PAPER_SIZES.length,
        spec_cost [((600 : ℚ), (800 : ℚ))] ((PAPER_SIZES.get i).2)
          ≤ spec_cost [((600 : ℚ), (800 : ℚ))] ((PAPER_SIZES.get j).2)) ∧
      ∀ j : Fin PAPER_SIZES.length, (j : ℕ) < (i : ℕ) →
        spec_cost [((600 : ℚ), (800 : ℚ))] ((PAPER_SIZES.get i).2)
          < spec_cost [((600 : ℚ), (800 : ℚ))] ((PAPER_SIZES.get j).2) :=
  ⟨by decide, by decide,
    C7_best_fit_argmin [((600 : ℚ), (800 : ℚ))] 0 0 (by decide) (by decide)⟩

/-- Claim C10: the `target_rat` and `tolerance` parameters of
`find_best_fit_size` are never read in its body, so the result depends
only on the collection of page sizes. -/
theorem C10_params_irrelevant (sz : List (ℚ × ℚ)) (r1 tol1 r2 tol2 : ℚ) :
    find_best_fit_size sz r1 tol1 = find_best_fit_size sz r2 tol2 := rfl

/-! ## `detect_optimal_size` (lines 40-67)

Each uploaded file is embedded as `Option (List (ℚ × ℚ))`: `none` when
`PdfReader(file)` raises (the `except Exception: continue` then skips the
file), `some pages` otherwise.  Inside the per-file loop the code appends
the page size to `all_sizes` and then computes `width / height`; a
zero-height page therefore leaves its size in `all_sizes` but aborts the
rest of that file through the same `except`. -/

/-- Sizes collected from one readable file: every page up to and including
the first zero-height page is recorded before `width / height` raises. -/
def fileSizes : List (ℚ × ℚ) → List (ℚ × ℚ)
  | [] => []
  | p :: ps => if p.2 = 0 then [p] else p :: fileSizes ps

/-- Aspect values collected from one readable file: the pages strictly
before the first zero-height page. -/
def fileRats : List (ℚ × ℚ) → List ℚ
  | [] => []
  | p :: ps => if p.2 = 0 then [] else (p.1 / p.2) :: fileRats ps

/-- The `all_sizes` accumulator of `detect_optimal_size` across all files. -/
def all_sizes_of : List (Option (List (ℚ × ℚ))) → List (ℚ × ℚ)
  | [] => []
  | f :: fs => fileSizes (f.getD []) ++ all_sizes_of fs

/-- The `all_ratios` accumulator of `detect_optimal_size` across all
files. -/
def all_rats_of : List (Option (List (ℚ × ℚ))) → List ℚ
  | [] => []
  | f :: fs => fileRats (f.getD []) ++ all_rats_of fs

/-- Python `round(x, 2)` (idealized to exact arithmetic). -/
def round2 (x : ℚ) : ℚ := ((round (x * 100) : ℤ) : ℚ) / 100

/-- `Counter(...).most_common(1)[0][0]` over the rounded aspect values:
the value with the highest count, ties broken by first occurrence. -/
def most_common_rat (l : List ℚ) : ℚ :=
  (l.map round2).foldl
    (fun best x =>
      if (l.map round2).count best < (l.map round2).count x then x else best)
    ((l.map round2).headD 0)

/-- `detect_optimal_size(uploaded_files)` (lines 40-67): with no collected
sizes it returns `A4`; otherwise `most_common(1)[0]` raises `IndexError`
when no aspect value was collected, and `find_best_fit_size` is called on
the collected sizes (raising `ZeroDivisionError` on a zero-height size). -/
def detect_optimal_size (files : List (Option (List (ℚ × ℚ)))) :
    Except Unit (ℚ × ℚ) :=
  if all_sizes_of files = [] then .ok A4q
  else if all_rats_of files = [] then .error ()
  else
    find_best_fit_size (all_sizes_of files)
      (most_common_rat (all_rats_of files)) (1 / 10)

theorem A4q_mem_paper : A4q ∈ PAPER_SIZES.map (fun c => c.2) :=
  List.mem_map.mpr ⟨("A4", A4q), List.mem_cons_self _ _, rfl⟩

theorem paper_sizes_pos : ∀ v ∈ PAPER_SIZES.map (fun c => c.2), 0 < v.1 ∧ 0 < v.2 := by
  intro v hv
  simp only [PAPER_SIZES, List.map_cons, List.map_nil, List.mem_cons,
    List.not_mem_nil, or_false] at hv
  rcases hv with rfl | rfl | rfl | rfl | rfl | rfl | rfl | rfl | rfl | rfl <;>
    norm_num [A4q, letterq, legalq, A3q, A5q, mmQ]

theorem fbf_step_mem (sz : List (ℚ × ℚ)) (acc : (ℚ × ℚ) × Option ℚ)
    (cand : String × ℚ × ℚ) :
    (fbf_step sz acc cand).1 = acc.1 ∨ (fbf_step sz acc cand).1 = cand.2 := by
  obtain ⟨a1, o⟩ := acc
  cases o with
  | none => exact Or.inr rfl
  | some b =>
    by_cases h : page_score sz cand.2 < b
    · have hs : fbf_step sz (a1, some b) cand = (cand.2, some (page_score sz cand.2)) := by
        show (if page_score sz cand.2 < b then _ else _) = _
        rw [if_pos h]
      rw [hs]
      exact Or.inr rfl
    · have hs : fbf_step sz (a1, some b) cand = (a1, some b) := by
        show (if page_score sz cand.2 < b then _ else _) = _
        rw [if_neg h]
      rw [hs]
      exact Or.inl rfl

theorem fbf_fold_mem (sz : List (ℚ × ℚ)) (l : List (String × ℚ × ℚ)) :
    ∀ acc, (l.foldl (fbf_step sz) acc).1 = acc.1 ∨
      ∃ cand ∈ l, (l.foldl (fbf_step sz) acc).1 = cand.2 := by
  induction l with
  | nil => exact fun acc => Or.inl rfl
  | cons x xs ih =>
    intro acc
    rw [List.foldl_cons]
    rcases ih (fbf_step sz acc x) with h | ⟨c, hc, hce⟩
    · rcases fbf_step_mem sz acc x with h2 | h2
      · exact Or.inl (h.trans h2)
      · exact Or.inr ⟨x, List.mem_cons_self x xs, h.trans h2⟩
    · exact Or.inr ⟨c, List.mem_cons_of_mem x hc, hce⟩

/-- Every normal result of `find_best_fit_size` is an entry of the
standard-size table. -/
theorem find_best_fit_size_ok_mem (sz : List (ℚ × ℚ)) (target_rat tolerance : ℚ)
    (v : ℚ × ℚ) (h : find_best_fit_size sz target_rat tolerance = .ok v) :
    v ∈ PAPER_SIZES.map (fun c => c.2) := by
  unfold find_best_fit_size at h
  split at h
  · injection h with hv
    rcases fbf_fold_mem sz PAPER_SIZES (A4q, none) with h2 | ⟨c, hc, hce⟩
    · rw [← hv, h2]
      exact A4q_mem_paper
    · rw [← hv, hce]
      exact List.mem_map.mpr ⟨c, hc, rfl⟩
  · exact Except.noConfusion h

theorem fileSizes_of_nonzero (l : List (ℚ × ℚ))
    (h : ∀ p ∈ fileSizes l, p.2 ≠ 0) :
    fileSizes l = l ∧ fileRats l = l.map (fun p => p.1 / p.2) := by
  induction l with
  | nil => exact ⟨rfl, rfl⟩
  | cons x xs ih =>
    by_cases hx : x.2 = 0
    · exfalso
      have hm : fileSizes (x :: xs) = [x] := by simp [fileSizes, hx]
      exact h x (hm ▸ List.mem_singleton_self x) hx
    · have hfs : fileSizes (x :: xs) = x :: fileSizes xs := by simp [fileSizes, hx]
      have hfr : fileRats (x :: xs) = (x.1 / x.2) :: fileRats xs := by
        simp [fileRats, hx]
      have hsub : ∀ p ∈ fileSizes xs, p.2 ≠ 0 := by
        intro p hp
        exact h p (hfs ▸ List.mem_cons_of_mem x hp)
      obtain ⟨h1, h2⟩ := ih hsub
      refine ⟨by rw [hfs, h1], ?_⟩
      rw [hfr, h2, List.map_cons]

theorem all_rats_eq (files : List (Option (List (ℚ × ℚ))))
    (h : ∀ p ∈ all_sizes_of files, p.2 ≠ 0) :
    all_rats_of files = (all_sizes_of files).map (fun p => p.1 / p.2) := by
  induction files with
  | nil => rfl
  | cons f fs ih =>
    have hall : all_sizes_of (f :: fs) = fileSizes (f.getD []) ++ all_sizes_of fs := rfl
    have h1 : ∀ p ∈ fileSizes (f.getD []), p.2 ≠ 0 := fun p hp =>
      h p (hall ▸ List.mem_append_left _ hp)
    have h2 : ∀ p ∈ all_sizes_of fs, p.2 ≠ 0 := fun p hp =>
      h p (hall ▸ List.mem_append_right _ hp)
    obtain ⟨hs, hr⟩ := fileSizes_of_nonzero (f.getD []) h1
    show fileRats (f.getD []) ++ all_rats_of fs = _
    rw [hall, List.map_append, ih h2, hr, hs]

/-- Claim C6: on an empty catalog (no page-size records collected, e.g.
every file failed to open or no files were given) `detect_optimal_size`
returns the default size A4 without raising; and every normal return is
exactly one valid page size (an entry of the standard table, both
dimensions positive).  Under the data-model invariant that recorded page
sizes have nonzero height, the selector always returns normally. -/
theorem C6_empty_catalog (files : List (Option (List (ℚ × ℚ)))) :
    (all_sizes_of files = [] → detect_optimal_size files = .ok A4q) ∧
    (∀ r, detect_optimal_size files = .ok r →
      r ∈ PAPER_SIZES.map (fun c => c.2) ∧ 0 < r.1 ∧ 0 < r.2) ∧
    ((∀ p ∈ all_sizes_of files, p.2 ≠ 0) →
      ∃ r, detect_optimal_size files = .ok r) := by
  refine ⟨?_, ?_, ?_⟩
  · intro h
    unfold detect_optimal_size
    rw [if_pos h]
  · intro r h
    unfold detect_optimal_size at h
    split at h
    · injection h with hv
      subst hv
      exact ⟨A4q_mem_paper, paper_sizes_pos A4q A4q_mem_paper⟩
    · split at h
      · exact Except.noConfusion h
      · have hmem := find_best_fit_size_ok_mem _ _ _ r h
        exact ⟨hmem, paper_sizes_pos r hmem⟩
  · intro hv
    by_cases hemp : all_sizes_of files = []
    · refine ⟨A4q, ?_⟩
      unfold detect_optimal_size
      rw [if_pos hemp]
    · have hr : all_rats_of files = (all_sizes_of files).map (fun p => p.1 / p.2) :=
        all_rats_eq files hv
      have hrne : all_rats_of files ≠ [] := by
        rw [hr]
        intro hcon
        exact hemp (List.map_eq_nil_iff.mp hcon)
      refine ⟨(PAPER_SIZES.foldl (fbf_step (all_sizes_of files)) (A4q, none)).1, ?_⟩
      unfold detect_optimal_size
      rw [if_neg hemp, if_neg hrne]
      unfold find_best_fit_size
      rw [if_pos hv]

/-- Claim C6, witness: the contract evaluated on an empty file list. -/
theorem C6_empty_catalog_witness :
    detect_optimal_size [] = .ok A4q ∧
    (A4q ∈ PAPER_SIZES.map (fun c => c.2) ∧ 0 < A4q.1 ∧ 0 < A4q.2) ∧
    ∃ r, detect_optimal_size [] = .ok r :=
  ⟨(C6_empty_catalog []).1 rfl,
    (C6_empty_catalog []).2.1 A4q ((C6_empty_catalog []).1 rfl),
    (C6_empty_catalog []).2.2 (fun p hp => absurd hp (List.not_mem_nil p))⟩
